import Mathlib

/-!
Verification of the CI-V protocol engine (`iu2frl_civ.py`) against its
specification.  The Python code is shallowly embedded: byte strings become
`List Nat` of byte values, Python text strings become `List Nat` of Unicode
codepoints, the serial transport becomes an explicit function from the read
index to the bytes returned by that `read_until` call, and fallible Python
code (code that can raise) returns `Option` or an explicit result type.
-/

/-- Outcome of one `Device._send_command` call.  `ok` is a normal return,
`rejected` is `CivCommandException` (carrying the raw status byte),
`timedOut` is `CivTimeoutException` (carrying the attempt count printed in
its message, i.e. `i+1`), `valueError` is the up-front `ValueError` on a bad
command length, `nameError` is the `NameError` raised when `attempts == 0`
leaves the loop variable `i` unbound at the final raise, and `indexError` is
the `IndexError` raised by `reply[3]` when a read is exactly 3 bytes long
(the code guards the address extraction only with `len(reply) > 2`). -/
inductive CivResult where
  | ok (reply : List Nat)
  | rejected (errorCode : Nat)
  | timedOut (attemptsReported : Nat)
  | valueError
  | nameError
  | indexError
  deriving DecidableEq, Repr

/-- The outbound frame bytes built by `_send_command`:
`preamble + b"\xfe\xfe" + transceiver_address + controller_address + command
 + data + b"\xfd"`. -/
def outboundFrame (preamble : List Nat) (trxAddr ctrlAddr : Nat)
    (command data : List Nat) : List Nat :=
  preamble ++ [0xFE, 0xFE] ++ [trxAddr] ++ [ctrlAddr] ++ command ++ data ++ [0xFD]

/-- The read loop of `_send_command` (`for i in range(self._read_attempts)`).
`k` is the Python loop index `i` of the current iteration and `rem` counts
the iterations still to run including the current one, so the loop is
entered as `readLoop cs ctrl trx reads 0 attempts`.

Each iteration reads `reads k` (the result of `self._ser.read_until`).  The
Python code does `i -= 1` in the echo and foreign-traffic branches, which
does NOT affect the next iteration of a `range` loop — it only changes the
value of `i` seen by the `CivTimeoutException` message when the loop ends on
such an iteration: there the message prints `i + 1 = (k - 1) + 1 = k`
attempts, while an iteration ending on a short read prints `k + 1`.  The
`rem = 0` pattern is the case where the loop body never runs (`attempts ==
0`): then `valid_reply` is false and the final f-string references the
unbound `i`, raising `NameError`.

A read of length > 2 enters the address-extraction branch, where Python
evaluates `reply[2]` (in range) and then `reply[3]`: on a read of exactly 3
bytes this raises `IndexError` and the call crashes — modelled as
`CivResult.indexError` before the address comparison. -/
def readLoop (cs : List Nat) (ctrl trx : Nat) (reads : Nat → List Nat) :
    Nat → Nat → CivResult
  | _, 0 => CivResult.nameError
  | k, rem + 1 =>
    let reply := reads k
    if reply = cs then
      -- echo of our own transmission; `i -= 1` is ineffective for iteration
      if rem = 0 then CivResult.timedOut k
      else readLoop cs ctrl trx reads (k + 1) rem
    else if 2 < reply.length then
      -- the `reply[3]` access crashes a 3-byte read with `IndexError`
      if reply.length ≤ 3 then CivResult.indexError
      else if reply.getD 2 0 ≠ ctrl ∨ reply.getD 3 0 ≠ trx then
        -- foreign traffic; `i -= 1` is ineffective for iteration
        if rem = 0 then CivResult.timedOut k
        else readLoop cs ctrl trx reads (k + 1) rem
      else if reply.getD (reply.length - 2) 0 = 0xFA then
        CivResult.rejected (reply.getD (reply.length - 2) 0)
      else
        CivResult.ok reply
    else
      -- empty / too-short read: timeout for this attempt
      if rem = 0 then CivResult.timedOut (k + 1)
      else readLoop cs ctrl trx reads (k + 1) rem

/-- `Device._send_command(command, data, preamble)` with the session's
transceiver address, controller address and `_read_attempts`, run against a
transport whose successive `read_until` results are `reads 0`, `reads 1`,
…. -/
def _send_command (trxAddr ctrlAddr : Nat) (attempts : Nat)
    (command data preamble : List Nat) (reads : Nat → List Nat) : CivResult :=
  if command.length = 1 ∨ command.length = 2 ∨ command.length = 3 ∨
      command.length = 4 then
    readLoop (outboundFrame preamble trxAddr ctrlAddr command data)
      ctrlAddr trxAddr reads 0 attempts
  else CivResult.valueError

/-- A candidate read that `_send_command` discards or consumes without
returning: an echo of the outbound frame, a short (`length ≤ 2`) read, or a
frame of more than 3 bytes whose destination/source addresses do not match
the session's pair.  These are exactly the branches after which the loop
goes on to the next read; a 3-byte read is NOT one of them — it crashes the
call with `IndexError` at `reply[3]`. -/
def isDiscarded (cs : List Nat) (ctrl trx : Nat) (r : List Nat) : Bool :=
  if r = cs then true
  else if 2 < r.length then
    if r.length ≤ 3 then false
    else decide (r.getD 2 0 ≠ ctrl ∨ r.getD 3 0 ≠ trx)
  else true

/- ### Address validation (`Device.__init__`) -/

/-- Value of one hexadecimal digit character (by codepoint), as accepted by
Python's `bytes.fromhex` / `int(_, 16)`. -/
def hexDigitVal? (c : Nat) : Option Nat :=
  if 48 ≤ c ∧ c ≤ 57 then some (c - 48)
  else if 97 ≤ c ∧ c ≤ 102 then some (c - 87)
  else if 65 ≤ c ∧ c ≤ 70 then some (c - 55)
  else none

/-- Pairs up hex digit characters into bytes; fails on an odd count or a
non-hex character, as `bytes.fromhex` does. -/
def bytesFromHexCore : List Nat → Option (List Nat)
  | [] => some []
  | [_] => none
  | a :: b :: rest => do
    let hi ← hexDigitVal? a
    let lo ← hexDigitVal? b
    let tail ← bytesFromHexCore rest
    pure ((16 * hi + lo) :: tail)

/-- Python `bytes.fromhex` on a codepoint string: ASCII spaces are skipped,
the remaining characters must be an even number of hex digits. -/
def bytes_fromhex (s : List Nat) : Option (List Nat) :=
  bytesFromHexCore (s.filter (fun c => c ≠ 32))

/-- The address validation in `Device.__init__` for one textual address:
`if addr.startswith("0x"): bytes.fromhex(addr[2:]) else: raise ValueError`.
`none` models the raised `ValueError` (either the explicit one or the one
escaping from `bytes.fromhex`). -/
def validated_address (s : List Nat) : Option (List Nat) :=
  if s.take 2 = [48, 120] then bytes_fromhex (s.drop 2) else none

/-- `Device.__init__` validating the transceiver then the controller
address; a constructed Device holds the resulting pair. -/
def device_init_addresses (radio controller : List Nat) :
    Option (List Nat × List Nat) := do
  let t ← validated_address radio
  let c ← validated_address controller
  pure (t, c)

/- ### Numeric codecs -/

/-- Python `str(m)` for a natural number, as codepoints. -/
def pyNatStr (m : Nat) : List Nat :=
  if m = 0 then [48] else (Nat.digits 10 m).reverse.map (fun d => 48 + d)

/-- Python `str(n)` for an integer, as codepoints (45 is the minus sign). -/
def pyIntStr (n : Int) : List Nat :=
  if n < 0 then 45 :: pyNatStr n.natAbs else pyNatStr n.toNat

/-- Python `s.rjust(width, pad)`. -/
def rjust (s : List Nat) (width pad : Nat) : List Nat :=
  List.replicate (width - s.length) pad ++ s

/-- Python `int("0x" + c1 + c0, 16)`: both characters must be hex digits
(`int("0x-5", 16)` raises `ValueError`). -/
def parseHexPair (c1 c0 : Nat) : Option Nat := do
  let hi ← hexDigitVal? c1
  let lo ← hexDigitVal? c0
  pure (16 * hi + lo)

/-- `Device._encode_frequency`: pad `str(frequency)` to 10 characters,
reverse it, and parse the five character pairs `(1,0) (3,2) (5,4) (7,6)
(9,8)` of the reversed string as hex bytes.  `none` models the `ValueError`
raised by `int(_, 16)` on a non-hex character (the minus sign). -/
def _encode_frequency (frequency : Int) : Option (List Nat) :=
  let inv := (rjust (pyIntStr frequency) 10 48).reverse
  do
    let b0 ← parseHexPair (inv.getD 1 0) (inv.getD 0 0)
    let b1 ← parseHexPair (inv.getD 3 0) (inv.getD 2 0)
    let b2 ← parseHexPair (inv.getD 5 0) (inv.getD 4 0)
    let b3 ← parseHexPair (inv.getD 7 0) (inv.getD 6 0)
    let b4 ← parseHexPair (inv.getD 9 0) (inv.getD 8 0)
    pure [b0, b1, b2, b3, b4]

/-- Codepoint of the hex digit `d` as produced by `"%X"` formatting
(uppercase). -/
def hexCharCode (d : Nat) : Nat := if d < 10 then 48 + d else 55 + d

/-- Python `f"{b:02X}"` for a byte value `b < 256`, as codepoints. -/
def hexByteChars (b : Nat) : List Nat :=
  [hexCharCode (b / 16), hexCharCode (b % 16)]

/-- Value of a decimal digit character, as accepted by Python `int(_)`. -/
def decDigitVal? (c : Nat) : Option Nat :=
  if 48 ≤ c ∧ c ≤ 57 then some (c - 48) else none

/-- Accumulating decimal parse of a codepoint string; fails on any non-digit
character, as `int(_)` does on the strings arising here. -/
def intParseCore : List Nat → Nat → Option Nat
  | [], acc => some acc
  | c :: rest, acc =>
    match decDigitVal? c with
    | some d => intParseCore rest (10 * acc + d)
    | none => none

/-- Python `int(s)` on the digit strings arising in this module (nonempty,
no sign, no whitespace): `none` models the raised `ValueError`. -/
def pyIntOfStr (s : List Nat) : Option Nat :=
  if s = [] then none else intParseCore s 0

/-- `Device._decode_frequency`: reverse the 5 BCD bytes, format each as two
uppercase hex characters, concatenate and parse the result as a decimal
integer.  `none` models the `ValueError` from `int(_)` when a nibble exceeds
9 (the hex letter is not a decimal digit). -/
def _decode_frequency (bs : List Nat) : Option Nat :=
  pyIntOfStr ((bs.reverse.map hexByteChars).flatten)

/-- `Device._bytes_to_int(first, second) = int(first) * 100 +
int(f"\x7bsecond:02X\x7d")`, on the integer byte values its callers pass
(`reply[6]`, `reply[7]`).  `none` models the `ValueError` from `int(_)` when
a nibble of `second` exceeds 9. -/
def _bytes_to_int (first second : Nat) : Option Nat :=
  (pyIntOfStr (hexByteChars second)).map (fun v => first * 100 + v)

/- ### Piecewise-linear interpolation (`Device._linear_interpolate`) -/

/-- First loop of `_linear_interpolate`: return the first breakpoint whose
raw value equals `raw` exactly. -/
def exactMatch? (raw : ℚ) : List (ℚ × ℚ) → Option ℚ
  | [] => none
  | p :: rest => if raw = p.1 then some p.2 else exactMatch? raw rest

/-- Second loop of `_linear_interpolate`: for the first adjacent pair with
`x0 < raw < x1`, return `y0 + (y1 - y0) * (raw - x0) / (x1 - x0)`. -/
def betweenMatch? (raw : ℚ) : List (ℚ × ℚ) → Option ℚ
  | p0 :: p1 :: rest =>
    if p0.1 < raw ∧ raw < p1.1 then
      some (p0.2 + (p1.2 - p0.2) * (raw - p0.1) / (p1.1 - p0.1))
    else betweenMatch? raw (p1 :: rest)
  | _ => none

/-- `Device._linear_interpolate`, with Python float arithmetic modelled as
exact rational arithmetic.  `points[0]` / `points[-1]` are modelled with
defaults that are only reached on the empty list, where the Python code
would raise `IndexError`. -/
def _linear_interpolate (raw : ℚ) (points : List (ℚ × ℚ)) : ℚ :=
  match exactMatch? raw points with
  | some v => v
  | none =>
    match betweenMatch? raw points with
    | some v => v
    | none =>
      if raw < (points.headD (0, 0)).1 then (points.headD (0, 0)).2
      else if (points.getLastD (0, 0)).1 < raw then (points.getLastD (0, 0)).2
      else -1

/-- Mirrors the control flow of `_linear_interpolate` and reports whether
the final fallback line (`return -1.0`) is the one that produced the
result. -/
def _linear_interpolate_fallback (raw : ℚ) (points : List (ℚ × ℚ)) : Bool :=
  match exactMatch? raw points with
  | some _ => false
  | none =>
    match betweenMatch? raw points with
    | some _ => false
    | none =>
      if raw < (points.headD (0, 0)).1 then false
      else if (points.getLastD (0, 0)).1 < raw then false
      else true

/- ### Helper lemmas -/

lemma getD_map_lt (f : Nat → Nat) (l : List Nat) (n d e : Nat)
    (h : n < l.length) : (l.map f).getD n d = f (l.getD n e) := by
  rw [List.getD_eq_getElem?_getD, List.getElem?_map, List.getD_eq_getElem?_getD,
    List.getElem?_eq_getElem h]
  rfl

lemma getD_replicate_lt (n a i d : Nat) (h : i < n) :
    (List.replicate n a).getD i d = a := by
  simp [List.getD_eq_getElem?_getD, List.getElem?_replicate, h]

/-- The `k`-th base-10 digit (little-endian) of `m`. -/
lemma digits_getD (k m : Nat) : (Nat.digits 10 m).getD k 0 = m / 10 ^ k % 10 := by
  induction k generalizing m with
  | zero =>
    rcases Nat.eq_zero_or_pos m with hm | hm
    · simp [hm]
    · rw [Nat.digits_def' (by norm_num) hm]
      simp
  | succ k ih =>
    rcases Nat.eq_zero_or_pos m with hm | hm
    · simp [hm]
    · rw [Nat.digits_def' (by norm_num) hm]
      simp only [List.getD_cons_succ]
      rw [ih, Nat.div_div_eq_div_mul]
      have h10 : 10 * 10 ^ k = 10 ^ (k + 1) := by ring
      rw [h10]

lemma pyNatStr_rev (m : Nat) (hm : m ≠ 0) :
    (pyNatStr m).reverse = (Nat.digits 10 m).map (fun d => 48 + d) := by
  unfold pyNatStr
  rw [if_neg hm, List.map_reverse, List.reverse_reverse]

/-- Character `k` (counting from the right) of `str(m).rjust(10, "0")` is
the codepoint of the `k`-th decimal digit of `m`, for every `m` (also those
longer than 10 digits, where `rjust` pads nothing). -/
lemma inv_getD (m k : Nat) (hk : k < 10) :
    ((rjust (pyNatStr m) 10 48).reverse).getD k 0 = 48 + m / 10 ^ k % 10 := by
  unfold rjust
  rw [List.reverse_append, List.reverse_replicate]
  rcases Nat.eq_zero_or_pos m with hm | hm
  · subst hm
    have h0 : pyNatStr 0 = [48] := rfl
    rw [h0]
    have : ((48 : Nat) :: List.replicate (10 - 1) 48 : List Nat) =
        List.replicate 10 48 := rfl
    simp only [List.reverse_cons, List.reverse_nil, List.nil_append,
      List.length_cons, List.length_nil] at *
    rw [show ([48] ++ List.replicate (10 - 1) 48 : List Nat) =
      List.replicate 10 48 from rfl]
    rw [getD_replicate_lt 10 48 k 0 hk]
    simp
  · have hm' : m ≠ 0 := by omega
    rw [pyNatStr_rev m hm']
    by_cases hkL : k < (Nat.digits 10 m).length
    · rw [List.getD_append _ _ _ _ (by simpa using hkL)]
      rw [getD_map_lt _ _ _ _ 0 hkL, digits_getD]
    · push_neg at hkL
      rw [List.getD_append_right _ _ _ _ (by simpa using hkL)]
      have hlen : (pyNatStr m).length = (Nat.digits 10 m).length := by
        unfold pyNatStr
        rw [if_neg hm']
        simp
      have hsmall : m < 10 ^ k := by
        have h1 : m < 10 ^ (Nat.digits 10 m).length :=
          Nat.lt_base_pow_length_digits (by norm_num)
        exact lt_of_lt_of_le h1 (Nat.pow_le_pow_right (by norm_num) hkL)
      have hdig : m / 10 ^ k % 10 = 0 := by
        rw [Nat.div_eq_of_lt hsmall]
      rw [hdig]
      rw [hlen]
      rw [getD_replicate_lt _ _ _ _ (by simp; omega)]

lemma hexDigitVal_digit (d : Nat) (hd : d < 10) : hexDigitVal? (48 + d) = some d := by
  unfold hexDigitVal?
  rw [if_pos (by omega)]
  congr 1
  omega

lemma parseHexPair_digits (a b : Nat) (ha : a < 10) (hb : b < 10) :
    parseHexPair (48 + a) (48 + b) = some (16 * a + b) := by
  unfold parseHexPair
  rw [hexDigitVal_digit a ha, hexDigitVal_digit b hb]
  rfl

/-- Symbolic evaluation of `_encode_frequency` on any natural number: it
succeeds and packs the (lowest) ten decimal digits pairwise. -/
lemma encode_eval (m : Nat) :
    _encode_frequency (m : Int) = some
      [16 * (m / 10 ^ 1 % 10) + m / 10 ^ 0 % 10,
       16 * (m / 10 ^ 3 % 10) + m / 10 ^ 2 % 10,
       16 * (m / 10 ^ 5 % 10) + m / 10 ^ 4 % 10,
       16 * (m / 10 ^ 7 % 10) + m / 10 ^ 6 % 10,
       16 * (m / 10 ^ 9 % 10) + m / 10 ^ 8 % 10] := by
  have hstr : pyIntStr (m : Int) = pyNatStr m := by
    unfold pyIntStr
    rw [if_neg (by omega)]
    norm_num
  simp only [_encode_frequency, hstr]
  rw [inv_getD m 0 (by norm_num), inv_getD m 1 (by norm_num),
    inv_getD m 2 (by norm_num), inv_getD m 3 (by norm_num),
    inv_getD m 4 (by norm_num), inv_getD m 5 (by norm_num),
    inv_getD m 6 (by norm_num), inv_getD m 7 (by norm_num),
    inv_getD m 8 (by norm_num), inv_getD m 9 (by norm_num)]
  rw [parseHexPair_digits _ _ (Nat.mod_lt _ (by norm_num)) (Nat.mod_lt _ (by norm_num)),
    parseHexPair_digits _ _ (Nat.mod_lt _ (by norm_num)) (Nat.mod_lt _ (by norm_num)),
    parseHexPair_digits _ _ (Nat.mod_lt _ (by norm_num)) (Nat.mod_lt _ (by norm_num)),
    parseHexPair_digits _ _ (Nat.mod_lt _ (by norm_num)) (Nat.mod_lt _ (by norm_num)),
    parseHexPair_digits _ _ (Nat.mod_lt _ (by norm_num)) (Nat.mod_lt _ (by norm_num))]
  rfl

lemma hexByteChars_pair (x y : Nat) (hx : x < 10) (hy : y < 10) :
    hexByteChars (16 * x + y) = [48 + x, 48 + y] := by
  unfold hexByteChars hexCharCode
  have h1 : (16 * x + y) / 16 = x := by omega
  have h2 : (16 * x + y) % 16 = y := by omega
  rw [h1, h2, if_pos hx, if_pos hy]

lemma decDigitVal_digit (d : Nat) (hd : d < 10) : decDigitVal? (48 + d) = some d := by
  unfold decDigitVal?
  rw [if_pos (by omega)]
  congr 1
  omega

lemma intParseCore_digit (d : Nat) (hd : d < 10) (rest : List Nat) (acc : Nat) :
    intParseCore ((48 + d) :: rest) acc = intParseCore rest (10 * acc + d) := by
  conv_lhs => rw [intParseCore]
  rw [decDigitVal_digit d hd]

/-- Symbolic evaluation of `_decode_frequency` on five packed-BCD bytes. -/
lemma decode_bcd (x0 y0 x1 y1 x2 y2 x3 y3 x4 y4 : Nat)
    (hx0 : x0 < 10) (hy0 : y0 < 10) (hx1 : x1 < 10) (hy1 : y1 < 10)
    (hx2 : x2 < 10) (hy2 : y2 < 10) (hx3 : x3 < 10) (hy3 : y3 < 10)
    (hx4 : x4 < 10) (hy4 : y4 < 10) :
    _decode_frequency
      [16 * x0 + y0, 16 * x1 + y1, 16 * x2 + y2, 16 * x3 + y3, 16 * x4 + y4] =
      some (10 * (10 * (10 * (10 * (10 * (10 * (10 * (10 * (10 * (10 * 0
        + x4) + y4) + x3) + y3) + x2) + y2) + x1) + y1) + x0) + y0) := by
  unfold _decode_frequency
  rw [show ([16 * x0 + y0, 16 * x1 + y1, 16 * x2 + y2, 16 * x3 + y3,
      16 * x4 + y4] : List Nat).reverse =
    [16 * x4 + y4, 16 * x3 + y3, 16 * x2 + y2, 16 * x1 + y1, 16 * x0 + y0]
    from rfl]
  simp only [List.map_cons, List.map_nil]
  rw [hexByteChars_pair x4 y4 hx4 hy4, hexByteChars_pair x3 y3 hx3 hy3,
    hexByteChars_pair x2 y2 hx2 hy2, hexByteChars_pair x1 y1 hx1 hy1,
    hexByteChars_pair x0 y0 hx0 hy0]
  rw [show ([[48 + x4, 48 + y4], [48 + x3, 48 + y3], [48 + x2, 48 + y2],
      [48 + x1, 48 + y1], [48 + x0, 48 + y0]] : List (List Nat)).flatten =
    [48 + x4, 48 + y4, 48 + x3, 48 + y3, 48 + x2, 48 + y2, 48 + x1, 48 + y1,
      48 + x0, 48 + y0] from by simp]
  unfold pyIntOfStr
  rw [if_neg (by simp)]
  rw [intParseCore_digit x4 hx4, intParseCore_digit y4 hy4,
    intParseCore_digit x3 hx3, intParseCore_digit y3 hy3,
    intParseCore_digit x2 hx2, intParseCore_digit y2 hy2,
    intParseCore_digit x1 hx1, intParseCore_digit y1 hy1,
    intParseCore_digit x0 hx0, intParseCore_digit y0 hy0]
  rfl

/-- C6: for every integer `f` with 10,000 ≤ f ≤ 74,000,000, decoding the
5-byte BCD encoding of `f` returns `f` exactly:
`_decode_frequency(_encode_frequency(f)) == f`. -/
theorem frequency_roundtrip (f : Nat) (h1 : 10000 ≤ f) (h2 : f ≤ 74000000) :
    (_encode_frequency (f : Int)).bind _decode_frequency = some f := by
  rw [encode_eval, Option.some_bind]
  rw [decode_bcd _ _ _ _ _ _ _ _ _ _
    (Nat.mod_lt _ (by norm_num)) (Nat.mod_lt _ (by norm_num))
    (Nat.mod_lt _ (by norm_num)) (Nat.mod_lt _ (by norm_num))
    (Nat.mod_lt _ (by norm_num)) (Nat.mod_lt _ (by norm_num))
    (Nat.mod_lt _ (by norm_num)) (Nat.mod_lt _ (by norm_num))
    (Nat.mod_lt _ (by norm_num)) (Nat.mod_lt _ (by norm_num))]
  congr 1
  omega

/-- Witness for C6 at the concrete frequency 14,100,000 Hz. -/
theorem frequency_roundtrip_witness :
    10000 ≤ 14100000 ∧ 14100000 ≤ 74000000 ∧
      (_encode_frequency ((14100000 : Nat) : Int)).bind _decode_frequency =
        some 14100000 :=
  ⟨by norm_num, by norm_num,
    frequency_roundtrip 14100000 (by norm_num) (by norm_num)⟩

lemma pyNatStr_length (m : Nat) (hm : m ≠ 0) :
    (pyNatStr m).length = (Nat.digits 10 m).length := by
  unfold pyNatStr
  rw [if_neg hm]
  simp

/-- Character `k` (from the right) of `str(-m).rjust(10, "0")`: a decimal
digit below the digit count of `m`, the minus sign at the digit count, and a
pad zero above it. -/
lemma neg_inv_getD (m k : Nat) (hm : m ≠ 0) (hk : k ≤ 9) :
    ((rjust (45 :: pyNatStr m) 10 48).reverse).getD k 0 =
      if k < (Nat.digits 10 m).length then 48 + m / 10 ^ k % 10
      else if k = (Nat.digits 10 m).length then 45
      else 48 := by
  unfold rjust
  rw [List.reverse_append, List.reverse_replicate, List.reverse_cons]
  rw [pyNatStr_rev m hm]
  by_cases h1 : k < (Nat.digits 10 m).length
  · rw [if_pos h1]
    rw [List.getD_append _ _ _ _ (by simp; omega)]
    rw [List.getD_append _ _ _ _ (by simpa using h1)]
    rw [getD_map_lt _ _ _ _ 0 h1, digits_getD]
  · push_neg at h1
    by_cases h2 : k = (Nat.digits 10 m).length
    · rw [if_neg (by omega), if_pos h2]
      rw [List.getD_append _ _ _ _ (by simp; omega)]
      rw [List.getD_append_right _ _ _ _ (by simpa using h1)]
      simp [h2]
    · rw [if_neg (by omega), if_neg h2]
      rw [List.getD_append_right _ _ _ _ (by simp; omega)]
      rw [getD_replicate_lt _ _ _ _
        (by simp [List.length_cons, pyNatStr_length m hm]; omega)]

lemma parseHexPair_mods (m j k : Nat) :
    parseHexPair (48 + m / 10 ^ j % 10) (48 + m / 10 ^ k % 10) =
      some (16 * (m / 10 ^ j % 10) + m / 10 ^ k % 10) :=
  parseHexPair_digits _ _ (Nat.mod_lt _ (by norm_num)) (Nat.mod_lt _ (by norm_num))

lemma parseHexPair_dash_left (c : Nat) : parseHexPair 45 c = none := rfl

lemma parseHexPair_dash_right : parseHexPair 48 45 = none := rfl

/-- On a negative input of at most 9 digits, the minus sign of `str(n)`
lands inside one of the five parsed character pairs and `int(_, 16)` raises
`ValueError`. -/
lemma encode_neg_small (n : Int) (h1 : -1000000000 < n) (h2 : n < 0) :
    _encode_frequency n = none := by
  have hm0 : n.natAbs ≠ 0 := by omega
  have hm9 : n.natAbs < 1000000000 := by omega
  have hstr : pyIntStr n = 45 :: pyNatStr n.natAbs := by
    unfold pyIntStr
    rw [if_pos h2]
  have hL1 : 1 ≤ (Nat.digits 10 n.natAbs).length := by
    have hne : Nat.digits 10 n.natAbs ≠ [] :=
      Nat.digits_ne_nil_iff_ne_zero.mpr hm0
    have := List.length_pos.mpr hne
    omega
  have hL9 : (Nat.digits 10 n.natAbs).length ≤ 9 := by
    by_contra hc
    push_neg at hc
    have ha : (10 : Nat) ^ 10 ≤ 10 ^ (Nat.digits 10 n.natAbs).length :=
      Nat.pow_le_pow_right (by norm_num) (by omega)
    have hb := Nat.base_pow_length_digits_le 10 n.natAbs (by norm_num) hm0
    have hc2 : (10 : Nat) ^ 10 ≤ 10 * n.natAbs := le_trans ha hb
    norm_num at hc2
    omega
  simp only [_encode_frequency, hstr]
  simp only [neg_inv_getD n.natAbs 0 hm0 (by norm_num),
    neg_inv_getD n.natAbs 1 hm0 (by norm_num),
    neg_inv_getD n.natAbs 2 hm0 (by norm_num),
    neg_inv_getD n.natAbs 3 hm0 (by norm_num),
    neg_inv_getD n.natAbs 4 hm0 (by norm_num),
    neg_inv_getD n.natAbs 5 hm0 (by norm_num),
    neg_inv_getD n.natAbs 6 hm0 (by norm_num),
    neg_inv_getD n.natAbs 7 hm0 (by norm_num),
    neg_inv_getD n.natAbs 8 hm0 (by norm_num),
    neg_inv_getD n.natAbs 9 hm0 (by norm_num)]
  set L := (Nat.digits 10 n.natAbs).length with hLdef
  interval_cases L <;>
    norm_num [parseHexPair_mods, parseHexPair_dash_left, parseHexPair_dash_right]

/-- C7 counterexample: the 11-digit value 10,000,000,000 exceeds 10 decimal
digits, yet `_encode_frequency` does not fail — it silently returns a 5-byte
encoding (the leading digit is dropped by the fixed indices 0–9). -/
theorem encode_eleven_digits_succeeds :
    _encode_frequency (10000000000 : Int) = some [0, 0, 0, 0, 0] ∧
      _encode_frequency (10000000000 : Int) ≠ none := by
  have hcast : (10000000000 : Int) = ((10000000000 : Nat) : Int) := by norm_num
  rw [hcast, encode_eval]
  norm_num
  intro hcontra
  exact Option.noConfusion hcontra

/-- C7 amended: the encoder raises `ValueError` exactly on the negative
inputs of at most 9 digits (the minus sign of `str(n)` falls inside a parsed
pair); every nonnegative input — including values exceeding 10 decimal
digits — is silently encoded into the 5 bytes packing its lowest ten decimal
digits. -/
theorem encode_error_handling_amended :
    (∀ n : Int, -1000000000 < n → n < 0 → _encode_frequency n = none) ∧
    (∀ n : Int, 0 ≤ n → _encode_frequency n = some
      [16 * (n.toNat / 10 ^ 1 % 10) + n.toNat / 10 ^ 0 % 10,
       16 * (n.toNat / 10 ^ 3 % 10) + n.toNat / 10 ^ 2 % 10,
       16 * (n.toNat / 10 ^ 5 % 10) + n.toNat / 10 ^ 4 % 10,
       16 * (n.toNat / 10 ^ 7 % 10) + n.toNat / 10 ^ 6 % 10,
       16 * (n.toNat / 10 ^ 9 % 10) + n.toNat / 10 ^ 8 % 10]) := by
  constructor
  · exact fun n h1 h2 => encode_neg_small n h1 h2
  · intro n h
    conv_lhs => rw [show n = ((n.toNat : Nat) : Int) from (Int.toNat_of_nonneg h).symm]
    exact encode_eval n.toNat

/-- Witness for the amended C7: `-5` raises, `10^10` silently encodes. -/
theorem encode_error_handling_witness :
    _encode_frequency (-5 : Int) = none ∧
      _encode_frequency (10000000000 : Int) = some [0, 0, 0, 0, 0] := by
  refine ⟨encode_error_handling_amended.1 (-5) (by norm_num) (by norm_num), ?_⟩
  have h := encode_error_handling_amended.2 10000000000 (by norm_num)
  norm_num at h
  exact h

lemma hexDigitVal_le (c v : Nat) (h : hexDigitVal? c = some v) : v ≤ 15 := by
  unfold hexDigitVal? at h
  split at h
  · injection h with h
    omega
  · split at h
    · injection h with h
      omega
    · split at h
      · injection h with h
        omega
      · exact Option.noConfusion h

lemma hexDigitVal_ne_space (c v : Nat) (h : hexDigitVal? c = some v) : c ≠ 32 := by
  intro hc
  subst hc
  exact Option.noConfusion h

/-- C5 counterexample: the textual address `"0x1234"` — whose remainder is 4
hex digits, not 2 — is NOT rejected: `bytes.fromhex` accepts any even number
of hex digits, so a Device is constructed with the 2-byte transceiver
address `b"\x12\x34"` (here paired with a valid controller `"0xe0"`). -/
theorem address_four_hex_digits_accepted :
    validated_address [48, 120, 49, 50, 51, 52] = some [18, 52] ∧
      device_init_addresses [48, 120, 49, 50, 51, 52] [48, 120, 101, 48] =
        some ([18, 52], [224]) := by
  exact ⟨rfl, rfl⟩

/-- C5 amended: construction checks only the `"0x"` prefix and then applies
`bytes.fromhex`: with the prefix and a remainder of exactly 2 hex digits it
yields the corresponding one-byte address (necessarily in range); without
the prefix it fails with `ValueError`; but a remainder that is not exactly 2
hex digits is not rejected as such — any even number of hex digits (possibly
zero) is accepted, so a Device can be constructed with an empty or
multi-byte address. -/
theorem address_validation_amended :
    (∀ a b x y : Nat, hexDigitVal? a = some x → hexDigitVal? b = some y →
      validated_address [48, 120, a, b] = some [16 * x + y] ∧
        16 * x + y ≤ 255) ∧
    (∀ s : List Nat, s.take 2 ≠ [48, 120] → validated_address s = none) := by
  constructor
  · intro a b x y ha hb
    have hxa := hexDigitVal_le a x ha
    have hyb := hexDigitVal_le b y hb
    refine ⟨?_, by omega⟩
    unfold validated_address
    rw [if_pos (show List.take 2 [48, 120, a, b] = [48, 120] from rfl)]
    unfold bytes_fromhex
    have ha32 := hexDigitVal_ne_space a x ha
    have hb32 := hexDigitVal_ne_space b y hb
    rw [show (([48, 120, a, b] : List Nat).drop 2) = [a, b] from rfl]
    rw [show (([a, b] : List Nat).filter (fun c => c ≠ 32)) = [a, b] from by
      simp [List.filter, ha32, hb32]]
    simp only [bytesFromHexCore]
    rw [ha, hb]
    rfl
  · intro s hs
    unfold validated_address
    rw [if_neg hs]

/-- Witness for the amended C5: `"0x12"` validates to the single byte 0x12;
`"12"` (no prefix) is rejected. -/
theorem address_validation_witness :
    validated_address [48, 120, 49, 50] = some [18] ∧
      validated_address [49, 50] = none := by
  constructor
  · have h := (address_validation_amended.1 49 50 1 2 rfl rfl).1
    norm_num at h
    exact h
  · exact address_validation_amended.2 [49, 50] (by decide)

lemma intParseCore_nonDigit (c : Nat) (hc : 57 < c) (rest : List Nat)
    (acc : Nat) : intParseCore (c :: rest) acc = none := by
  conv_lhs => rw [intParseCore]
  rw [show decDigitVal? c = none from by unfold decDigitVal?; rw [if_neg (by omega)]]

/-- C8 counterexample: on the byte pair `(0, 0x0A)` the second byte has a
low nibble of 10, its hex rendering is `"0A"`, and `int("0A")` raises
`ValueError` — `_bytes_to_int` is not total and returns no numeric
result. -/
theorem bytes_to_int_not_total : _bytes_to_int 0 10 = none := rfl

/-- C8 amended: `_bytes_to_int` is error-free exactly on second bytes that
are valid packed BCD (both nibbles ≤ 9), where it returns
`first * 100 + (10 * high_nibble + low_nibble)`; when either nibble of the
second byte exceeds 9, the hex rendering contains a letter, the decimal
re-parse fails and the call raises `ValueError` instead of returning a
number. -/
theorem bytes_to_int_amended (first second : Nat) (_hbyte : second < 256) :
    (second / 16 < 10 → second % 16 < 10 →
      _bytes_to_int first second =
        some (first * 100 + (10 * (second / 16) + second % 16))) ∧
    (10 ≤ second / 16 ∨ 10 ≤ second % 16 →
      _bytes_to_int first second = none) := by
  constructor
  · intro hh hl
    unfold _bytes_to_int
    rw [show hexByteChars second = [48 + second / 16, 48 + second % 16] from by
      unfold hexByteChars hexCharCode; rw [if_pos hh, if_pos hl]]
    unfold pyIntOfStr
    rw [if_neg (by simp)]
    rw [intParseCore_digit _ hh, intParseCore_digit _ hl]
    simp only [intParseCore]
    rw [show 10 * (10 * 0 + second / 16) + second % 16 =
      10 * (second / 16) + second % 16 from by omega]
    rfl
  · intro hbad
    unfold _bytes_to_int
    by_cases hh : second / 16 < 10
    · have hl : 10 ≤ second % 16 := by
        rcases hbad with h | h
        · omega
        · exact h
      rw [show hexByteChars second = [48 + second / 16, 55 + second % 16] from by
        unfold hexByteChars hexCharCode; rw [if_pos hh, if_neg (by omega)]]
      unfold pyIntOfStr
      rw [if_neg (by simp)]
      rw [intParseCore_digit _ hh]
      rw [intParseCore_nonDigit _ (by omega)]
      rfl
    · rw [show hexByteChars second =
          [55 + second / 16, hexCharCode (second % 16)] from by
        unfold hexByteChars hexCharCode; rw [if_neg hh]]
      unfold pyIntOfStr
      rw [if_neg (by simp)]
      rw [intParseCore_nonDigit _ (by omega)]
      rfl

/-- Witness for the amended C8: `(3, 0x42)` gives `342`; `(0, 0x0A)`
raises. -/
theorem bytes_to_int_witness :
    _bytes_to_int 3 66 = some 342 ∧ _bytes_to_int 0 10 = none := by
  constructor
  · have h := (bytes_to_int_amended 3 66 (by norm_num)).1 (by norm_num) (by norm_num)
    norm_num at h
    exact h
  · exact (bytes_to_int_amended 0 10 (by norm_num)).2 (by norm_num)

/- ### Exchange engine lemmas -/

lemma readLoop_discard_step (cs : List Nat) (ctrl trx : Nat)
    (reads : Nat → List Nat) (k rem : Nat) (hrem : 1 ≤ rem)
    (hd : isDiscarded cs ctrl trx (reads k) = true) :
    readLoop cs ctrl trx reads k (rem + 1) =
      readLoop cs ctrl trx reads (k + 1) rem := by
  simp only [readLoop]
  by_cases h1 : reads k = cs
  · rw [if_pos h1, if_neg (by omega)]
  · rw [if_neg h1]
    by_cases h2 : 2 < (reads k).length
    · rw [if_pos h2]
      unfold isDiscarded at hd
      rw [if_neg h1, if_pos h2] at hd
      by_cases h3 : (reads k).length ≤ 3
      · rw [if_pos h3] at hd
        exact absurd hd (by simp)
      · rw [if_neg h3] at hd
        rw [if_neg h3, if_pos (of_decide_eq_true hd), if_neg (by omega)]
    · rw [if_neg h2, if_neg (by omega)]

/-- If every read before index `k` is discarded or consumed without
returning, the loop reaches index `k` with `attempts - k` iterations
left. -/
lemma readLoop_reaches (cs : List Nat) (ctrl trx : Nat)
    (reads : Nat → List Nat) (attempts k : Nat) (hk : k < attempts)
    (hprev : ∀ j, j < k → isDiscarded cs ctrl trx (reads j) = true) :
    readLoop cs ctrl trx reads 0 attempts =
      readLoop cs ctrl trx reads k (attempts - k) := by
  induction k with
  | zero => simp
  | succ k ih =>
    have hk' : k < attempts := by omega
    rw [ih hk' (fun j hj => hprev j (by omega))]
    rw [show attempts - k = (attempts - (k + 1)) + 1 from by omega]
    exact readLoop_discard_step cs ctrl trx reads k (attempts - (k + 1))
      (by omega) (hprev k (by omega))

lemma readLoop_short_all (cs : List Nat) (ctrl trx : Nat)
    (reads : Nat → List Nat) (hcs : 2 < cs.length) :
    ∀ rem k, 1 ≤ rem → (∀ j, k ≤ j → j < k + rem → (reads j).length ≤ 2) →
      readLoop cs ctrl trx reads k rem = CivResult.timedOut (k + rem) := by
  intro rem
  induction rem with
  | zero => intro k h1 _; omega
  | succ rem ih =>
    intro k _ hall
    simp only [readLoop]
    have hsh : (reads k).length ≤ 2 := hall k (by omega) (by omega)
    have hne : reads k ≠ cs := by
      intro he
      rw [he] at hsh
      omega
    rw [if_neg hne, if_neg (by omega)]
    rcases Nat.eq_zero_or_pos rem with h0 | hpos
    · subst h0
      rw [if_pos rfl]
    · rw [if_neg (by omega)]
      rw [ih (k + 1) (by omega) (fun j hj1 hj2 => hall j (by omega) (by omega))]
      congr 1
      omega

/-- C1: the spec (and the code's own comment `# Decrement cycles as it is
just the echo back`) promise that a self-echo does not consume a retry
attempt, so with one attempt left an echo followed by a valid reply should
still succeed.  In the code `i -= 1` inside `for i in range(...)` has no
effect on the iteration count, so the echo DOES consume the only attempt:
with `attempts = 1` the call raises `CivTimeoutException` reporting 0
attempts, and only with `attempts = 2` does it succeed. -/
theorem echo_consumes_attempt :
    _send_command 0x94 0xE0 1 [0x03] [] []
        (fun k => if k = 0 then outboundFrame [] 0x94 0xE0 [0x03] []
          else [0xFE, 0xFE, 0xE0, 0x94, 0x03, 0xFB, 0xFD]) =
      CivResult.timedOut 0 ∧
    _send_command 0x94 0xE0 2 [0x03] [] []
        (fun k => if k = 0 then outboundFrame [] 0x94 0xE0 [0x03] []
          else [0xFE, 0xFE, 0xE0, 0x94, 0x03, 0xFB, 0xFD]) =
      CivResult.ok [0xFE, 0xFE, 0xE0, 0x94, 0x03, 0xFB, 0xFD] :=
  ⟨rfl, rfl⟩

/-- C2: the spec (and the code's own comment `# Decrement cycles to ignore
messages not for us`) promise that foreign traffic does not consume a retry
attempt.  Because `i -= 1` is ineffective in a `range` loop, a foreign frame
DOES consume an attempt: with `attempts = 1` a foreign frame followed by a
valid reply raises `CivTimeoutException` (reporting 0 attempts) instead of
the engine keeping on reading; with `attempts = 2` the same transport trace
succeeds.  (The foreign frame itself is indeed never returned.) -/
theorem foreign_traffic_consumes_attempt :
    _send_command 0x94 0xE0 1 [0x03] [] []
        (fun k => if k = 0 then [0xFE, 0xFE, 0x00, 0x94, 0x03, 0xFB, 0xFD]
          else [0xFE, 0xFE, 0xE0, 0x94, 0x03, 0xFB, 0xFD]) =
      CivResult.timedOut 0 ∧
    _send_command 0x94 0xE0 2 [0x03] [] []
        (fun k => if k = 0 then [0xFE, 0xFE, 0x00, 0x94, 0x03, 0xFB, 0xFD]
          else [0xFE, 0xFE, 0xE0, 0x94, 0x03, 0xFB, 0xFD]) =
      CivResult.ok [0xFE, 0xFE, 0xE0, 0x94, 0x03, 0xFB, 0xFD] :=
  ⟨rfl, rfl⟩

/-- C3: the first reply that matches the session (destination = controller,
source = transceiver — a reply carrying both address bytes necessarily has
more than 3 bytes) and carries the negative-acknowledge sentinel `0xFA` in
its second-to-last byte makes `_send_command` fail immediately with
`CivCommandException` carrying that raw status byte — no further reads
happen and the remaining attempt budget (any `attempts > k`) is irrelevant.
The earlier reads are exactly those the loop survives without returning:
echoes, short (length ≤ 2) reads, or mismatched frames of more than 3 bytes
(a 3-byte read would instead crash the call with `IndexError`). -/
theorem nak_short_circuits (trxAddr ctrlAddr attempts k : Nat)
    (command data preamble : List Nat) (reads : Nat → List Nat)
    (hcmd : command.length = 1 ∨ command.length = 2 ∨ command.length = 3 ∨
      command.length = 4)
    (hk : k < attempts)
    (hprev : ∀ j, j < k →
      isDiscarded (outboundFrame preamble trxAddr ctrlAddr command data)
        ctrlAddr trxAddr (reads j) = true)
    (hne : reads k ≠ outboundFrame preamble trxAddr ctrlAddr command data)
    (hlen : 3 < (reads k).length)
    (hdst : (reads k).getD 2 0 = ctrlAddr)
    (hsrc : (reads k).getD 3 0 = trxAddr)
    (hng : (reads k).getD ((reads k).length - 2) 0 = 0xFA) :
    _send_command trxAddr ctrlAddr attempts command data preamble reads =
      CivResult.rejected 0xFA := by
  unfold _send_command
  rw [if_pos hcmd]
  rw [readLoop_reaches _ _ _ _ attempts k hk hprev]
  rw [show attempts - k = (attempts - k - 1) + 1 from by omega]
  simp only [readLoop]
  rw [if_neg hne, if_pos (show 2 < (reads k).length from by omega)]
  rw [if_neg (show ¬ (reads k).length ≤ 3 from by omega)]
  rw [if_neg (fun h => h.elim (fun h2 => h2 hdst) (fun h2 => h2 hsrc))]
  rw [if_pos hng, hng]

/-- Witness for C3: with a 3-attempt budget, an empty read followed by a
matching NG reply is rejected at once. -/
theorem nak_short_circuits_witness :
    _send_command 0x94 0xE0 3 [0x03] [] []
        (fun k => if k = 0 then []
          else [0xFE, 0xFE, 0xE0, 0x94, 0x03, 0xFA, 0xFD]) =
      CivResult.rejected 0xFA :=
  nak_short_circuits 0x94 0xE0 3 1 [0x03] [] []
    (fun k => if k = 0 then []
      else [0xFE, 0xFE, 0xE0, 0x94, 0x03, 0xFA, 0xFD])
    (by norm_num) (by norm_num)
    (by
      intro j hj
      have hj0 : j = 0 := by omega
      subst hj0
      rfl)
    (by decide) (by decide) (by decide) (by decide) (by decide)

/-- C4: if the transport yields only empty (length ≤ 2) reads, every
attempt is consumed and `_send_command` fails with `CivTimeoutException`
reporting exactly `attempts` attempts — no partial result is returned. -/
theorem timeout_exhaustion (trxAddr ctrlAddr attempts : Nat)
    (command data preamble : List Nat) (reads : Nat → List Nat)
    (hcmd : command.length = 1 ∨ command.length = 2 ∨ command.length = 3 ∨
      command.length = 4)
    (hatt : 1 ≤ attempts)
    (hempty : ∀ j, j < attempts → (reads j).length ≤ 2) :
    _send_command trxAddr ctrlAddr attempts command data preamble reads =
      CivResult.timedOut attempts := by
  unfold _send_command
  rw [if_pos hcmd]
  have hcs : 2 < (outboundFrame preamble trxAddr ctrlAddr command data).length := by
    unfold outboundFrame
    simp [List.length_append]
    omega
  rw [readLoop_short_all _ _ _ _ hcs attempts 0 hatt
    (fun j hj1 hj2 => hempty j (by omega))]
  congr 1
  omega

/-- Witness for C4: three empty reads exhaust a 3-attempt budget. -/
theorem timeout_exhaustion_witness :
    _send_command 0x94 0xE0 3 [0x03] [] [] (fun _ => []) =
      CivResult.timedOut 3 :=
  timeout_exhaustion 0x94 0xE0 3 [0x03] [] [] (fun _ => [])
    (by norm_num) (by norm_num) (fun j _ => by simp)

/- ### Interpolation lemmas -/

lemma exactMatch?_eq_none (raw : ℚ) (pts : List (ℚ × ℚ)) :
    exactMatch? raw pts = none ↔ ∀ p ∈ pts, raw ≠ p.1 := by
  induction pts with
  | nil => simp [exactMatch?]
  | cons p rest ih =>
    simp only [exactMatch?]
    by_cases h : raw = p.1
    · rw [if_pos h]
      constructor
      · intro hc
        exact Option.noConfusion hc
      · intro hall
        exact absurd h (hall p (by simp))
    · rw [if_neg h, ih]
      constructor
      · intro hall q hq
        rcases List.mem_cons.mp hq with rfl | hq'
        · exact h
        · exact hall q hq'
      · intro hall q hq
        exact hall q (List.mem_cons_of_mem _ hq)

lemma exactMatch?_mem (raw y : ℚ) (pts : List (ℚ × ℚ))
    (hsort : pts.Pairwise (fun p q => p.1 < q.1)) (hmem : (raw, y) ∈ pts) :
    exactMatch? raw pts = some y := by
  induction pts with
  | nil => cases hmem
  | cons p rest ih =>
    rcases List.mem_cons.mp hmem with heq | hmem'
    · rw [← heq]
      simp [exactMatch?]
    · have hlt : p.1 < raw := by
        have := (List.pairwise_cons.mp hsort).1 (raw, y) hmem'
        simpa using this
      simp only [exactMatch?]
      rw [if_neg (by
        intro h
        rw [h] at hlt
        exact lt_irrefl _ hlt)]
      exact ih (List.pairwise_cons.mp hsort).2 hmem'

lemma betweenMatch?_none_low (raw : ℚ) (pts : List (ℚ × ℚ))
    (h : ∀ p ∈ pts, raw ≤ p.1) : betweenMatch? raw pts = none := by
  induction pts with
  | nil => rfl
  | cons p rest ih =>
    cases rest with
    | nil => rfl
    | cons q rest2 =>
      simp only [betweenMatch?]
      rw [if_neg (by
        rintro ⟨h1, _⟩
        exact absurd (h p (by simp)) (not_le.mpr h1))]
      exact ih (fun r hr => h r (List.mem_cons_of_mem _ hr))

lemma betweenMatch?_none_high (raw : ℚ) (pts : List (ℚ × ℚ))
    (h : ∀ p ∈ pts, p.1 ≤ raw) : betweenMatch? raw pts = none := by
  induction pts with
  | nil => rfl
  | cons p rest ih =>
    cases rest with
    | nil => rfl
    | cons q rest2 =>
      simp only [betweenMatch?]
      rw [if_neg (by
        rintro ⟨_, h2⟩
        exact absurd (h q (by simp)) (not_le.mpr h2))]
      exact ih (fun r hr => h r (List.mem_cons_of_mem _ hr))

lemma betweenMatch?_decomp (raw x0 y0 x1 y1 : ℚ) (l1 l2 : List (ℚ × ℚ))
    (hsort : (l1 ++ (x0, y0) :: (x1, y1) :: l2).Pairwise (fun p q => p.1 < q.1))
    (h0 : x0 < raw) (h1 : raw < x1) :
    betweenMatch? raw (l1 ++ (x0, y0) :: (x1, y1) :: l2) =
      some (y0 + (y1 - y0) * (raw - x0) / (x1 - x0)) := by
  induction l1 with
  | nil =>
    simp only [List.nil_append, betweenMatch?]
    rw [if_pos ⟨h0, h1⟩]
  | cons a l1' ih =>
    have hsort' : (l1' ++ (x0, y0) :: (x1, y1) :: l2).Pairwise
        (fun p q => p.1 < q.1) := (List.pairwise_cons.mp hsort).2
    cases hl : l1' with
    | nil =>
      subst hl
      simp only [List.cons_append, List.nil_append, betweenMatch?]
      rw [if_neg (by
        rintro ⟨_, ha2⟩
        exact lt_irrefl raw (lt_trans ha2 h0))]
      have := ih hsort'
      simpa [betweenMatch?] using this
    | cons b l1'' =>
      subst hl
      simp only [List.cons_append, betweenMatch?]
      rw [if_neg (by
        rintro ⟨_, ha2⟩
        have hbx : b.1 < x0 :=
          (List.pairwise_cons.mp hsort').1 (x0, y0) (by simp)
        exact lt_irrefl x0 (lt_trans (lt_trans h0 ha2) hbx))]
      have := ih hsort'
      simpa [betweenMatch?] using this

lemma le_getLastD_of_sorted (pts : List (ℚ × ℚ))
    (hs : pts.Pairwise (fun p q => p.1 < q.1)) :
    ∀ q ∈ pts, q.1 ≤ (pts.getLastD (0, 0)).1 := by
  induction pts with
  | nil =>
    intro q hq
    cases hq
  | cons p rest ih =>
    intro q hq
    cases rest with
    | nil =>
      rcases List.mem_cons.mp hq with rfl | h'
      · exact le_refl _
      · cases h'
    | cons r rest2 =>
      have hgl : ((p :: r :: rest2).getLastD ((0 : ℚ), (0 : ℚ))) =
          ((r :: rest2).getLastD ((0 : ℚ), (0 : ℚ))) := by
        rw [List.getLastD_eq_getLast?, List.getLastD_eq_getLast?,
          List.getLast?_cons_cons]
      rw [hgl]
      have htail := (List.pairwise_cons.mp hs).2
      rcases List.mem_cons.mp hq with rfl | h'
      · have h1 : q.1 < r.1 := by
          have := (List.pairwise_cons.mp hs).1 r (by simp)
          simpa using this
        have h2 : r.1 ≤ ((r :: rest2).getLastD ((0 : ℚ), (0 : ℚ))).1 :=
          ih htail r (by simp)
        exact le_of_lt (lt_of_lt_of_le h1 h2)
      · exact ih htail q h'

lemma no_fallback_aux (pts : List (ℚ × ℚ)) (raw : ℚ) :
    pts.Pairwise (fun p q => p.1 < q.1) → pts ≠ [] →
    (∀ p ∈ pts, raw ≠ p.1) → betweenMatch? raw pts = none →
    ¬ raw < (pts.headD (0, 0)).1 → ¬ (pts.getLastD (0, 0)).1 < raw →
    False := by
  induction pts with
  | nil =>
    intro _ h _ _ _ _
    exact h rfl
  | cons p rest ih =>
    intro hs _ hnm hbet hh hl
    cases rest with
    | nil =>
      simp only [List.headD_cons] at hh
      have hgl : (([p] : List (ℚ × ℚ)).getLastD (0, 0)) = p := rfl
      rw [hgl] at hl
      push_neg at hh hl
      exact hnm p (by simp) (le_antisymm hl hh)
    | cons q rest2 =>
      have hp : p.1 < raw := by
        push_neg at hh
        simp only [List.headD_cons] at hh
        rcases lt_or_eq_of_le hh with h | h
        · exact h
        · exact absurd h.symm (hnm p (by simp))
      by_cases hq : raw < q.1
      · simp only [betweenMatch?] at hbet
        rw [if_pos ⟨hp, hq⟩] at hbet
        exact Option.noConfusion hbet
      · have hbet' : betweenMatch? raw (q :: rest2) = none := by
          simp only [betweenMatch?] at hbet
          rw [if_neg (by rintro ⟨_, h2⟩; exact hq h2)] at hbet
          exact hbet
        have hgl : ((p :: q :: rest2).getLastD ((0 : ℚ), (0 : ℚ))) =
            ((q :: rest2).getLastD ((0 : ℚ), (0 : ℚ))) := by
          rw [List.getLastD_eq_getLast?, List.getLastD_eq_getLast?,
            List.getLast?_cons_cons]
        rw [hgl] at hl
        exact ih (List.pairwise_cons.mp hs).2 (by simp)
          (fun r hr => hnm r (List.mem_cons_of_mem _ hr)) hbet'
          (by simpa using hq) hl

/-- C9: `_linear_interpolate` on a points list strictly ascending in raw
value returns (1) the breakpoint value on an exact raw match, (2) the linear
interpolation between the two surrounding breakpoints when the raw value
lies strictly between them, (3) the first breakpoint's value below the
first, (4) the last breakpoint's value above the last; and in particular for
`[(0,0),(120,100)]` it returns 0 at −5, 50 at 60 and 100 at 500. -/
theorem linear_interpolate_correct :
    (∀ (pts : List (ℚ × ℚ)) (x y : ℚ),
      pts.Pairwise (fun p q => p.1 < q.1) → (x, y) ∈ pts →
      _linear_interpolate x pts = y) ∧
    (∀ (pts l1 l2 : List (ℚ × ℚ)) (x0 y0 x1 y1 raw : ℚ),
      pts.Pairwise (fun p q => p.1 < q.1) →
      pts = l1 ++ (x0, y0) :: (x1, y1) :: l2 →
      x0 < raw → raw < x1 →
      _linear_interpolate raw pts =
        y0 + (y1 - y0) * (raw - x0) / (x1 - x0)) ∧
    (∀ (pts : List (ℚ × ℚ)) (raw : ℚ),
      pts.Pairwise (fun p q => p.1 < q.1) → pts ≠ [] →
      raw < (pts.headD (0, 0)).1 →
      _linear_interpolate raw pts = (pts.headD (0, 0)).2) ∧
    (∀ (pts : List (ℚ × ℚ)) (raw : ℚ),
      pts.Pairwise (fun p q => p.1 < q.1) → pts ≠ [] →
      (pts.getLastD (0, 0)).1 < raw →
      _linear_interpolate raw pts = (pts.getLastD (0, 0)).2) ∧
    _linear_interpolate (-5) [(0, 0), (120, 100)] = 0 ∧
    _linear_interpolate 60 [(0, 0), (120, 100)] = 50 ∧
    _linear_interpolate 500 [(0, 0), (120, 100)] = 100 := by
  refine ⟨?_, ?_, ?_, ?_, ?_, ?_, ?_⟩
  · intro pts x y hs hm
    unfold _linear_interpolate
    rw [exactMatch?_mem x y pts hs hm]
  · intro pts l1 l2 x0 y0 x1 y1 raw hs hdec h0 h1
    subst hdec
    have hnone : exactMatch? raw (l1 ++ (x0, y0) :: (x1, y1) :: l2) = none := by
      rw [exactMatch?_eq_none]
      intro p hp
      rcases List.mem_append.mp hp with hp1 | hp2
      · have hpx : p.1 < x0 := by
          have := (List.pairwise_append.mp hs).2.2 p hp1 (x0, y0) (by simp)
          simpa using this
        intro he
        rw [he] at h0
        exact lt_asymm hpx h0
      · have hrest := (List.pairwise_append.mp hs).2.1
        rcases List.mem_cons.mp hp2 with rfl | hp3
        · exact ne_of_gt h0
        · rcases List.mem_cons.mp hp3 with rfl | hp4
          · exact ne_of_lt h1
          · have hx1p : x1 < p.1 := by
              have := (List.pairwise_cons.mp
                (List.pairwise_cons.mp hrest).2).1 p hp4
              simpa using this
            intro he
            rw [he] at h1
            exact lt_asymm hx1p h1
    unfold _linear_interpolate
    rw [hnone, betweenMatch?_decomp raw x0 y0 x1 y1 l1 l2 hs h0 h1]
  · intro pts raw hs hne hlt
    obtain ⟨p, rest, rfl⟩ := List.exists_cons_of_ne_nil hne
    simp only [List.headD_cons] at hlt ⊢
    have hmin : ∀ q ∈ p :: rest, raw < q.1 := by
      intro q hq
      rcases List.mem_cons.mp hq with rfl | hq'
      · exact hlt
      · have := (List.pairwise_cons.mp hs).1 q hq'
        exact lt_trans hlt this
    have hex : exactMatch? raw (p :: rest) = none := by
      rw [exactMatch?_eq_none]
      intro q hq
      exact ne_of_lt (hmin q hq)
    have hbet : betweenMatch? raw (p :: rest) = none :=
      betweenMatch?_none_low raw _ (fun q hq => le_of_lt (hmin q hq))
    unfold _linear_interpolate
    rw [hex, hbet]
    simp only [List.headD_cons]
    rw [if_pos hlt]
  · intro pts raw hs hne hgt
    have hmax : ∀ q ∈ pts, q.1 < raw := fun q hq =>
      lt_of_le_of_lt (le_getLastD_of_sorted pts hs q hq) hgt
    have hex : exactMatch? raw pts = none := by
      rw [exactMatch?_eq_none]
      intro q hq
      exact ne_of_gt (hmax q hq)
    have hbet : betweenMatch? raw pts = none :=
      betweenMatch?_none_high raw pts (fun q hq => le_of_lt (hmax q hq))
    unfold _linear_interpolate
    rw [hex, hbet]
    have hnlt : ¬ raw < (pts.headD (0, 0)).1 := by
      obtain ⟨p, rest, rfl⟩ := List.exists_cons_of_ne_nil hne
      have := hmax p (by simp)
      simp only [List.headD_cons]
      exact not_lt.mpr (le_of_lt this)
    rw [if_neg hnlt, if_pos hgt]
  · norm_num [_linear_interpolate, exactMatch?, betweenMatch?]
  · norm_num [_linear_interpolate, exactMatch?, betweenMatch?]
  · norm_num [_linear_interpolate, exactMatch?, betweenMatch?]

/-- Witness for C9: the exact-match clause applied to the concrete points
list `[(0,0),(120,100)]` at raw value 120. -/
theorem linear_interpolate_correct_witness :
    _linear_interpolate 120 [(0, 0), (120, 100)] = 100 :=
  linear_interpolate_correct.1 [(0, 0), (120, 100)] 120 100
    (by norm_num) (by norm_num)

/-- C10: on a nonempty points list strictly ascending in raw value,
`_linear_interpolate` never reaches the final fallback line returning
`-1.0`: every input is answered by the exact-match, between-breakpoints,
below-first or above-last path. -/
theorem interpolate_never_fallback (pts : List (ℚ × ℚ)) (raw : ℚ)
    (hne : pts ≠ []) (hs : pts.Pairwise (fun p q => p.1 < q.1)) :
    _linear_interpolate_fallback raw pts = false := by
  unfold _linear_interpolate_fallback
  cases hex : exactMatch? raw pts with
  | some v => rfl
  | none =>
    cases hbet : betweenMatch? raw pts with
    | some v => rfl
    | none =>
      by_cases h1 : raw < (pts.headD (0, 0)).1
      · rw [if_pos h1]
      · rw [if_neg h1]
        by_cases h2 : (pts.getLastD (0, 0)).1 < raw
        · rw [if_pos h2]
        · exact absurd (no_fallback_aux pts raw hs hne
            ((exactMatch?_eq_none raw pts).mp hex) hbet h1 h2) id

/-- Witness for C10 on the concrete points list `[(0,0),(120,100)]` at raw
value 60. -/
theorem interpolate_never_fallback_witness :
    _linear_interpolate_fallback 60 [(0, 0), (120, 100)] = false :=
  interpolate_never_fallback [(0, 0), (120, 100)] 60 (by simp) (by norm_num)
